import Mathlib

/-!
Verification of the `hero_stats` repository against its natural-language
specification.

The definitions below are shallow embeddings of the Python and embedded
JavaScript functions of the repository:

* `canon`, `pairDecision`, `collectPairs` — the ability-draft combo matcher
  (`build_ad_helper_page.py` / `build_ability_draft_game.py`, generated JS);
* `adjusted_score` — the scoring function (`hero_stats.py`, `team_analyzer.py`);
* `scoreWithText`, `pickTableWithText`, `scoreByHero`, `pickDataTableByhero`,
  `parse_hs_table`, `parse_by_hero`, `_to_float` — the windrun.io scraper
  (`scrape_ability_by_hero.py`);
* `OpenDotaClient.get` — the OpenDota HTTP wrapper (`dota_league_bot/api_client.py`);
* `applyLabel`, `applyUndo` — the role labeler session (`label_ability_roles.py`).

Machine floats are modelled by `ℚ` (exact decimal values) or `ℝ` (real
arithmetic for `log`/`**`); JavaScript `Map`/`Set` and Python `dict` are
modelled by association lists with replace-first/erase-first semantics, which
coincides with the insertion-order semantics of the originals on the
duplicate-free lists they actually build.
-/

/-! ### Character-level model of the JavaScript `canon` helper

`canon` (identical in `build_ad_helper_page.py` line 311 and
`build_ability_draft_game.py` line 299) is

  String(s || "").toLowerCase().normalize("NFKD")
    .replace(quoteRe, singleQuote).replace(dquoteRe, doubleQuote)
    .replace(dashRe, hyphen).replace(dotUnderscoreRe, space)
    .replace(nonWordRe, space).replace(spaceRunRe, space).trim()

`toLowerCase` and `normalize("NFKD")` use the full Unicode tables; the model
below implements them faithfully on a documented sub-alphabet: all ASCII
characters (which have no NFKD decompositions, and whose only case mappings
are A-Z to a-z), the quote/dash variants U+2018, U+2019, U+201C, U+201D,
U+2013, U+2014 (no decompositions, no case mappings), and the representative
compatibility character U+1D400 MATHEMATICAL BOLD CAPITAL A (UnicodeData:
category Lu, decomposition <font> 0041, and empty simple-lowercase field, so
`toLowerCase` leaves it unchanged and NFKD maps it to the ASCII letter A).
Both functions act as the identity on every other character of the model;
theorems that quantify over strings therefore restrict to the faithfully
modelled sub-alphabet.
-/

/-- JavaScript `toLowerCase`, restricted to the modelled alphabet:
lowers A-Z (code points 65-90, shifted by 32), leaves everything else
unchanged. -/
def jsLowerChar (c : Char) : Char :=
  if 65 ≤ c.toNat ∧ c.toNat ≤ 90 then Char.ofNat (c.toNat + 32) else c

/-- Unicode NFKD on the modelled alphabet: U+1D400 decomposes to "A"
(UnicodeData 1D400: <font> 0041); ASCII and the modelled punctuation have no
decompositions. -/
def nfkdChar (c : Char) : List Char :=
  if c = Char.ofNat 0x1D400 then ['A'] else [c]

/-- JavaScript regex `\w` (no Unicode flag): `[A-Za-z0-9_]`. -/
def isWordChar (c : Char) : Bool :=
  (97 ≤ c.toNat && c.toNat ≤ 122) || (65 ≤ c.toNat && c.toNat ≤ 90) ||
  (48 ≤ c.toNat && c.toNat ≤ 57) || c.toNat = 95

/-- JavaScript regex `\s` (the WhiteSpace and LineTerminator characters,
also the set removed by `String.prototype.trim`). -/
def jsSpace (c : Char) : Bool :=
  c.toNat = 32 || c.toNat = 9 || c.toNat = 10 || c.toNat = 13 ||
  c.toNat = 0x0b || c.toNat = 0x0c || c.toNat = 0xa0 || c.toNat = 0x1680 ||
  (0x2000 ≤ c.toNat && c.toNat ≤ 0x200a) ||
  c.toNat = 0x2028 || c.toNat = 0x2029 || c.toNat = 0x202f ||
  c.toNat = 0x205f || c.toNat = 0x3000 || c.toNat = 0xfeff

/-- `.replace(quoteRe, singleQuote)`: U+2018/U+2019 become `'`. -/
def replQuote (c : Char) : Char :=
  if c.toNat = 0x2018 || c.toNat = 0x2019 then '\'' else c

/-- `.replace(dquoteRe, doubleQuote)`: U+201C/U+201D become `"`. -/
def replDQuote (c : Char) : Char :=
  if c.toNat = 0x201c || c.toNat = 0x201d then '"' else c

/-- `.replace(dashRe, hyphen)`: U+2013/U+2014 become `-`. -/
def replDash (c : Char) : Char :=
  if c.toNat = 0x2013 || c.toNat = 0x2014 then '-' else c

/-- `.replace(dotUnderscoreRe, space)`: `.` and `_` become a space. -/
def replDotUnderscore (c : Char) : Char :=
  if c.toNat = 46 || c.toNat = 95 then ' ' else c

/-- `.replace(nonWordRe, space)`: anything outside `\w`, `\s`, `'`, `-`
becomes a space. -/
def replNonWord (c : Char) : Char :=
  if !(isWordChar c || jsSpace c || c.toNat = 39 || c.toNat = 45) then ' '
  else c

/-- The five character-wise replacement passes of `canon`, composed in the
order the source applies them. -/
def canonChar (c : Char) : Char :=
  replNonWord (replDotUnderscore (replDash (replDQuote (replQuote c))))

/-- `.replace(spaceRunRe, " ")`: each maximal run of `\s` characters becomes a
single ASCII space. The boolean argument records whether the previous
character was part of a space run. -/
def collapseAux : Bool → List Char → List Char
  | _, [] => []
  | inRun, c :: rest =>
    if jsSpace c then
      if inRun then collapseAux true rest else ' ' :: collapseAux true rest
    else c :: collapseAux false rest

def collapseSpaces (l : List Char) : List Char := collapseAux false l

/-- JavaScript `String.prototype.trim`. -/
def trimChars (l : List Char) : List Char :=
  ((l.dropWhile jsSpace).reverse.dropWhile jsSpace).reverse

/-- `canon` on a list of characters: lowercase, NFKD, the five replacement
steps, whitespace-run collapse, trim. -/
def canonList (s : List Char) : List Char :=
  trimChars (collapseSpaces (((s.map jsLowerChar).flatMap nfkdChar).map canonChar))

/-- The JavaScript `canon` function of the page builders. -/
def canon (s : String) : String := ⟨canonList s.data⟩

/-- The characters on which the model of `toLowerCase`/NFKD is faithful:
ASCII plus the quote/dash variants named by `canon`'s regexes. -/
def tameChar (c : Char) : Bool :=
  c.toNat < 128 || c.toNat = 0x2018 || c.toNat = 0x2019 ||
  c.toNat = 0x201c || c.toNat = 0x201d || c.toNat = 0x2013 || c.toNat = 0x2014

/-- Characters fixed by every stage of the `canon` pipeline other than the
whitespace handling: lowercase letters, digits, apostrophe, hyphen. -/
def stableChar (c : Char) : Bool :=
  (97 ≤ c.toNat && c.toNat ≤ 122) || (48 ≤ c.toNat && c.toNat ≤ 57) ||
  c.toNat = 39 || c.toNat = 45

/-- The character-wise action of `canon` before whitespace collapsing, on
characters without NFKD decompositions. -/
def canonCharLower (c : Char) : Char := canonChar (jsLowerChar c)

/-- Two characters that `canon` cannot distinguish: both in the faithfully
modelled alphabet and identified by the character-wise pipeline (equal, or
differing only in letter case, quote/dash variant, or punctuation that is
normalized to a space). -/
def variantChar (c d : Char) : Bool :=
  tameChar c && tameChar d && canonCharLower c = canonCharLower d

/-- The display string with a curly apostrophe from the specification
example (built character by character to keep the source ASCII-clean). -/
def heroStrikeCurly : String :=
  String.mk ['H', 'e', 'r', 'o', Char.ofNat 0x2019, 's', ' ',
    'S', 't', 'r', 'i', 'k', 'e']

/-- The same display string, lowercase and with an ASCII apostrophe. -/
def heroStrikeAscii : String :=
  String.mk ['h', 'e', 'r', 'o', '\'', 's', ' ',
    's', 't', 'r', 'i', 'k', 'e']

/-! ### The combo matcher `collectPairs`

`build_ad_helper_page.py` lines 440-467 (identically
`build_ability_draft_game.py` lines 371-398).  A pair record is a row of
`cache/ability_pairs.json`; the JS `null`/missing tokens are `Option`s, and a
JS falsy token (absent or the empty string) skips the pair. -/

structure PairRec where
  a1 : Option String
  a2 : Option String
  a1_img : Option String
  a2_img : Option String
  synergy : Option ℚ
deriving DecidableEq

structure ComboRow where
  a1 : String
  a2 : String
  a1_img : Option String
  a2_img : Option String
  syn : Option ℚ
deriving DecidableEq

/-- JS `x || null` on a nullable string: the empty string is falsy. -/
def orNull (s : Option String) : Option String :=
  match s with
  | some t => if t = "" then none else some t
  | none => none

/-- Python/JS dictionary and `Map` assignment on an association list:
replace the value at the first occurrence of the key, or append a new
binding. On the duplicate-free lists the scripts build this is exactly
`dict[k] = v` / `Map.set(k, v)`. -/
def assocSet {α β : Type} [DecidableEq α] :
    List (α × β) → α → β → List (α × β)
  | [], k, v => [(k, v)]
  | (k0, v0) :: rest, k, v =>
    if k0 = k then (k, v) :: rest else (k0, v0) :: assocSet rest k v

/-- Python `dict.pop(k, None)`: remove the first binding of the key. -/
def assocPop {α β : Type} [DecidableEq α] :
    List (α × β) → α → List (α × β)
  | [], _ => []
  | (k0, v0) :: rest, k => if k0 = k then rest else (k0, v0) :: assocPop rest k

/-- The `ok` flag computed by the `collectPairs` loop body for canonical
tokens `a1n`, `a2n`: the token-type classification and cross-hero owner
search of `build_ad_helper_page.py` lines 448-462. -/
def pairOk (selectedHeroes : List String)
    (abilityOwners : List (String × List String))
    (selectedAbilities : List String) (a1n a2n : String) : Bool :=
  let o1 := abilityOwners.lookup a1n
  let o2 := abilityOwners.lookup a2n
  let a1IsAbility := o1.isSome
  let a2IsAbility := o2.isSome
  let a1IsHero := selectedHeroes.contains a1n
  let a2IsHero := selectedHeroes.contains a2n
  if a1IsAbility && a2IsAbility then
    (selectedAbilities.contains a1n && selectedAbilities.contains a2n) &&
    (o1.getD []).any (fun h1 => selectedHeroes.contains h1 &&
      (o2.getD []).any (fun h2 => selectedHeroes.contains h2 && h1 ≠ h2))
  else if a1IsHero && a2IsAbility then
    selectedAbilities.contains a2n &&
    (o2.getD []).any (fun h2 => selectedHeroes.contains h2 && h2 ≠ a1n)
  else if a2IsHero && a1IsAbility then
    selectedAbilities.contains a1n &&
    (o1.getD []).any (fun h1 => selectedHeroes.contains h1 && h1 ≠ a2n)
  else false

/-- The decision `collectPairs` takes for one element of `PAIRS`: `some row`
when the loop body pushes a row, `none` when it `continue`s.
`selectedHeroes` is the set `[...sel].map(canon)`, `abilityOwners` the map
from canonical ability name to the list of canonical owner heroes, and
`selectedAbilities` the set `selectedAbilityNames.map(canon)`. -/
def pairDecision (selectedHeroes : List String)
    (abilityOwners : List (String × List String))
    (selectedAbilities : List String) (p : PairRec) : Option ComboRow :=
  match p.a1, p.a2 with
  | some a1raw, some a2raw =>
    if a1raw = "" ∨ a2raw = "" then none
    else
      let a1n := canon a1raw
      let a2n := canon a2raw
      if a1n = a2n then none
      else if pairOk selectedHeroes abilityOwners selectedAbilities a1n a2n then
        some ⟨a1raw, a2raw, orNull p.a1_img, orNull p.a2_img, p.synergy⟩
      else none
  | _, _ => none

/-- `collectPairs(selectedAbilityNames)`: filters `PAIRS` by `pairDecision`,
canonicalizing the raw selected hero names and selected ability names exactly
as the source does on entry. -/
def collectPairs (sel : List String) (abilityOwners : List (String × List String))
    (selectedAbilityNames : List String) (pairs : List PairRec) : List ComboRow :=
  pairs.filterMap
    (pairDecision (sel.map canon) abilityOwners (selectedAbilityNames.map canon))

/-! ### The selection-side pipeline feeding `collectPairs`

`load_high_skill` (`build_ad_helper_page.py` lines 49-77) appends the hero
model itself as a draftable ability named after the hero; `collectAbilities`
(page JS) builds one row per raw ability name of the selected heroes with the
list of contributing heroes, and `renderTables` rebuilds `abilityOwners` from
those rows with canonical keys. Only the data the combo matcher consumes
(names and owner lists) is modelled. -/

/-- `load_high_skill`, lines 60-70: the hero model is appended to the hero's
ability list as an ability named after the hero, unless an ability of that
name is already present. -/
def loadHighSkillAbilityNames (h : String) (abilities : List String) : List String :=
  if abilities.all (fun a => a ≠ h) then abilities ++ [h] else abilities

/-- `collectAbilities` restricted to the fields the pair matcher uses: the
rows keyed by raw ability name (in `Map` insertion order) with their `from`
hero lists. The separate `MODEL::` rows have `kind: "model"` and never reach
`abilityOwners` or `selectedAbilityNames`, so they are not represented. -/
def collectAbilityRows (dataAb : List (String × List String)) (sel : List String) :
    List (String × List String) :=
  sel.foldl (fun rows h =>
    match dataAb.lookup h with
    | none => rows
    | some abilities =>
      abilities.foldl (fun rows a =>
        match rows.lookup a with
        | none => rows ++ [(a, [h])]
        | some fr => assocSet rows a (fr ++ [h])) rows) []

/-- `renderTables` lines 531-539: `abilityOwners` maps the canonical ability
name of each ability row to the canonical names of its contributing heroes
(the JS `Set` is represented by the insertion list; only membership is used). -/
def abilityOwnersOf (rows : List (String × List String)) :
    List (String × List String) :=
  rows.foldl (fun m r => assocSet m (canon r.1) (r.2.map canon)) []

/-- `renderPairs` line 604: the raw names of the ability rows, passed to
`collectPairs` as `selectedAbilityNames`. -/
def selectedAbilityNamesOf (rows : List (String × List String)) : List String :=
  rows.map (fun r => r.1)

/-! ### Scoring functions (`hero_stats.py`, `team_analyzer.py`) -/

namespace HeroStats

/-- `adjusted_score` (`hero_stats.py` lines 48-53); float arithmetic is
modelled by real arithmetic. -/
noncomputable def adjusted_score (wins games : ℕ) (gamma : ℝ) : ℝ :=
  if games = 0 then 0
  else
    let winrate : ℝ := (wins : ℝ) / (games : ℝ)
    winrate * Real.log ((games : ℝ) + 1) ^ gamma

end HeroStats

namespace TeamAnalyzer

/-- `adjusted_score` (`team_analyzer.py` lines 49-54), textually identical
to the `hero_stats.py` definition. -/
noncomputable def adjusted_score (wins games : ℕ) (gamma : ℝ) : ℝ :=
  if games = 0 then 0
  else
    let winrate : ℝ := (wins : ℝ) / (games : ℝ)
    winrate * Real.log ((games : ℝ) + 1) ^ gamma

end TeamAnalyzer

/-- The default value of the `gamma` parameter in both definitions. -/
noncomputable def defaultGamma : ℝ := 0.69

/-- The specification's formula (section 4.3): `(wins/games) *
ln(games+1)^gamma`, defined as 0 when `games == 0`. -/
noncomputable def adjustedScoreSpec (wins games : ℕ) (gamma : ℝ) : ℝ :=
  if games = 0 then 0
  else ((wins : ℝ) / (games : ℝ)) * Real.log ((games : ℝ) + 1) ^ gamma

/-! ### The windrun.io scraper: numeric parsing (`_to_float`)

`_num = re.compile(r"[-+]?\d*\.?\d+")`; `_to_float` returns `None` for a
`None` argument, strips commas, searches for the first match of `_num` and
converts it with `float()`. Python floats are modelled as exact rationals;
Python `\d` (Unicode digits) is modelled by ASCII digits, the only ones the
scraped pages contain. -/

/-- `s.replace(",", "")`. -/
def removeCommas (l : List Char) : List Char := l.filter (fun c => c ≠ ',')

/-- A greedy match of the regex body `\d*\.?\d+` anchored at the current
position, backtracking folded in: maximal leading digits, then a dot only
when at least one digit follows it. -/
def numBody (cs : List Char) : Option (List Char) :=
  let d1 := cs.takeWhile Char.isDigit
  match cs.drop d1.length with
  | c :: r2 =>
    if c = '.' then
      if r2.takeWhile Char.isDigit ≠ [] then
        some (d1 ++ '.' :: r2.takeWhile Char.isDigit)
      else if d1 ≠ [] then some d1 else none
    else if d1 ≠ [] then some d1 else none
  | [] => if d1 ≠ [] then some d1 else none

/-- A match of `[-+]?\d*\.?\d+` anchored at the current position. -/
def matchNumAt (cs : List Char) : Option (List Char) :=
  match cs with
  | [] => none
  | c :: rest =>
    if c = '+' ∨ c = '-' then (numBody rest).map (fun t => c :: t)
    else numBody (c :: rest)

/-- `re.search`: the match at the leftmost position where one exists. -/
def searchNum : List Char → Option (List Char)
  | [] => none
  | c :: rest =>
    match matchNumAt (c :: rest) with
    | some t => some t
    | none => searchNum rest

/-- The natural number denoted by a digit string. -/
def digitsVal (ds : List Char) : ℕ :=
  ds.foldl (fun n c => 10 * n + (c.toNat - 48)) 0

/-- The value of the digit body of a matched token. -/
def bodyVal (r : List Char) : ℚ :=
  let d1 := r.takeWhile Char.isDigit
  match r.drop d1.length with
  | c :: r2 =>
    if c = '.' then
      let d2 := r2.takeWhile Char.isDigit
      (digitsVal d1 : ℚ) + (digitsVal d2 : ℚ) / (10 : ℚ) ^ d2.length
    else (digitsVal d1 : ℚ)
  | [] => (digitsVal d1 : ℚ)

/-- Python `float()` of a matched token, as an exact rational. -/
def tokenVal (t : List Char) : ℚ :=
  match t with
  | c :: r =>
    if c = '-' then -(bodyVal r)
    else if c = '+' then bodyVal r
    else bodyVal (c :: r)
  | [] => bodyVal []

/-- `_to_float` (`scrape_ability_by_hero.py` lines 30-35). -/
def _to_float (s : Option String) : Option ℚ :=
  match s with
  | none => none
  | some s => (searchNum (removeCommas s.data)).map tokenVal

/-! ### The windrun.io scraper: table selection -/

/-- A `<table>` as the scoring heuristics see it: whether its text contains
the required header text (`must_contain`, lowercased substring test),
whether it has an `/abilities/<id>` link, a `/heroes/<id>` link, and the
literal text `body winrate`. -/
structure ScrapedTable where
  containsRequiredText : Bool
  hasAbilityLink : Bool
  hasHeroLink : Bool
  containsBodyWinrateText : Bool
deriving DecidableEq

/-- The score of `_pick_table_with_text` (`scrape_ability_by_hero.py`
lines 56-72): 3 for the header text, 2 for an ability link, 1 for a hero
link. -/
def scoreWithText (t : ScrapedTable) : Int :=
  (if t.containsRequiredText then 3 else 0) +
  (if t.hasAbilityLink then 2 else 0) +
  (if t.hasHeroLink then 1 else 0)

/-- The score of `_pick_data_table_byhero` (lines 154-169): 2 for a hero
link, 2 for an ability link, 1 for `body winrate` text. -/
def scoreByHero (t : ScrapedTable) : Int :=
  (if t.hasHeroLink then 2 else 0) +
  (if t.hasAbilityLink then 2 else 0) +
  (if t.containsBodyWinrateText then 1 else 0)

/-- The shared best-candidate loop: start from `best = None`,
`best_score = -1`, keep the first strict maximum. -/
def pickBest (score : ScrapedTable → Int) (tables : List ScrapedTable) :
    Option ScrapedTable × Int :=
  tables.foldl (fun acc t => if score t > acc.2 then (some t, score t) else acc)
    (none, -1)

/-- `_pick_table_with_text`: the best candidate if it reaches score 3. -/
def _pick_table_with_text (tables : List ScrapedTable) : Option ScrapedTable :=
  let r := pickBest scoreWithText tables
  if r.2 ≥ 3 then r.1 else none

/-- `_pick_data_table_byhero`: the best candidate if it reaches score 3. -/
def _pick_data_table_byhero (tables : List ScrapedTable) : Option ScrapedTable :=
  let r := pickBest scoreByHero tables
  if r.2 ≥ 3 then r.1 else none

/-! ### The windrun.io scraper: page parsing

`parse_hs_table` and `parse_by_hero` are modelled from the point where
BeautifulSoup has produced the document structure: a high-skill table row
carries its cell texts and the first `/abilities/...` link (href and text);
a by-hero anchor event carries the fields the loop reads (ids parsed from
the href, link text, enclosing-block data). The header resolution
(`find_col`) and the table lookup precede these loops and raise their own
errors; the claims below concern the zero-rows checks. -/

structure HSRow where
  cells : List String
  link : Option (String × String)
  img : Option String

/-- `re.search(r"^/abilities/(-?\d+)$", href)`: the ability id of a
full-match href. -/
def parseAbilityHref (href : String) : Option Int :=
  let pre := "/abilities/".data
  if href.data.take pre.length = pre then
    match href.data.drop pre.length with
    | '-' :: ds =>
      if ds ≠ [] ∧ ds.all Char.isDigit then some (-(digitsVal ds : Int))
      else none
    | ds =>
      if ds ≠ [] ∧ ds.all Char.isDigit then some ((digitsVal ds : Int))
      else none
  else none

structure HSAbility where
  ability_id : Int
  ability_name : String
  img : Option String
  win_pct : Option ℚ
  pick_num : Option ℚ
deriving DecidableEq

structure HSModel where
  model_ability_id : Int
  hero_name : String
  img : Option String
  win_pct : Option ℚ
  pick_num : Option ℚ
deriving DecidableEq

inductive HSEntry where
  | ability (a : HSAbility)
  | model (m : HSModel)

/-- One iteration of the `parse_hs_table` row loop (lines 106-148): skip
short rows, rows without an abilities link, empty names, and hrefs that do
not full-match; negative ids are hero-model rows. -/
def processHSRow (winIdx pickIdx : ℕ) (r : HSRow) : Option HSEntry :=
  if r.cells.length ≤ max winIdx pickIdx then none
  else
    match r.link with
    | none => none
    | some (href, name) =>
      if name = "" then none
      else
        match parseAbilityHref href with
        | none => none
        | some abilId =>
          let win_pct := _to_float (some (r.cells.getD winIdx ""))
          let pick_num := _to_float (some (r.cells.getD pickIdx ""))
          if abilId < 0 then
            some (.model ⟨abilId, name, r.img, win_pct, pick_num⟩)
          else some (.ability ⟨abilId, name, r.img, win_pct, pick_num⟩)

/-- The two dictionaries `parse_hs_table` accumulates over the body rows. -/
def hsScan (winIdx pickIdx : ℕ) (rows : List HSRow) :
    List (Int × HSAbility) × List (String × HSModel) :=
  rows.foldl (fun acc r =>
    match processHSRow winIdx pickIdx r with
    | none => acc
    | some (.ability a) => (assocSet acc.1 a.ability_id a, acc.2)
    | some (.model m) => (acc.1, assocSet acc.2 m.hero_name m)) ([], [])

/-- `parse_hs_table` (lines 74-152): raises when zero abilities were
parsed after the scan. -/
def parse_hs_table (winIdx pickIdx : ℕ) (rows : List HSRow) :
    Except String (List (Int × HSAbility) × List (String × HSModel)) :=
  let scan := hsScan winIdx pickIdx rows
  if scan.1.isEmpty then
    .error "Parsed zero HS abilities; page structure may have changed."
  else .ok scan

structure HeroLinkEvent where
  heroId : Option Int
  name : String
  hasTd : Bool
  img : Option String
  bodyWinrate : Option ℚ

structure AbilityLinkEvent where
  abilityId : Option Int
  name : String
  img : Option String
  win_pct : Option ℚ
  pick_num : Option ℚ

/-- An anchor of the by-hero data table in document order. -/
inductive BHLink where
  | hero (h : HeroLinkEvent)
  | ability (a : AbilityLinkEvent)

structure HeroRec where
  hero_id : Option Int
  hero_img : Option String
  body_winrate : Option ℚ
  abilities : List HSAbility
deriving DecidableEq

/-- Python `x or y` on optional integers: `None` and `0` are falsy. -/
def orFalsyInt (a b : Option Int) : Option Int :=
  match a with
  | some v => if v = 0 then b else some v
  | none => b

/-- Python `x or y` on optional floats: `None` and `0.0` are falsy. -/
def orFalsyRat (a b : Option ℚ) : Option ℚ :=
  match a with
  | some v => if v = 0 then b else some v
  | none => b

/-- Python `not x` on an optional integer. -/
def idFalsy (a : Option Int) : Bool :=
  match a with
  | none => true
  | some v => v = 0

/-- One step of the `parse_by_hero` anchor scan (lines 200-277): hero
anchors update the running `current_hero` cursor and the hero record; later
ability anchors are appended (deduplicated by id) to the current hero. -/
def bhStep (st : List (String × HeroRec) × Option String) (e : BHLink) :
    List (String × HeroRec) × Option String :=
  match e with
  | .hero h =>
    let heroImg := if h.hasTd then h.img else none
    if h.hasTd && (idFalsy h.heroId || h.name = "") then st
    else
      let bw := if h.hasTd then h.bodyWinrate else none
      match st.1.lookup h.name with
      | none => (st.1 ++ [(h.name, ⟨h.heroId, heroImg, bw, []⟩)], some h.name)
      | some r0 =>
        (assocSet st.1 h.name
          ⟨orFalsyInt r0.hero_id h.heroId,
            (if r0.hero_img = none ∨ r0.hero_img = some "" then heroImg
             else r0.hero_img),
            orFalsyRat r0.body_winrate bw, r0.abilities⟩, some h.name)
  | .ability a =>
    match st.2 with
    | none => st
    | some cur =>
      if idFalsy a.abilityId || a.name = "" then st
      else
        match a.abilityId with
        | none => st
        | some aid =>
          match st.1.lookup cur with
          | none => st
          | some r0 =>
            if r0.abilities.any (fun x => x.ability_id = aid) then st
            else
              (assocSet st.1 cur
                ⟨r0.hero_id, r0.hero_img, r0.body_winrate,
                  r0.abilities ++ [⟨aid, a.name, a.img, a.win_pct, a.pick_num⟩]⟩,
                st.2)

/-- The hero dictionary after the full anchor scan. -/
def bhHeroes (events : List BHLink) : List (String × HeroRec) :=
  (events.foldl bhStep ([], none)).1

/-- `heroes = {h: v for h, v in heroes.items() if v.get("abilities")}`. -/
def bhKept (events : List BHLink) : List (String × HeroRec) :=
  (bhHeroes events).filter (fun hv => !hv.2.abilities.isEmpty)

/-- `parse_by_hero` (lines 182-287): raises when no hero with at least one
ability was parsed. -/
def parse_by_hero (events : List BHLink) :
    Except String (List (String × HeroRec)) :=
  let kept := bhKept events
  if kept.isEmpty then .error "Parsed zero heroes." else .ok kept

/-! ### The OpenDota client (`dota_league_bot/api_client.py`) -/

/-- An HTTP response as `OpenDotaClient.get` sees it: status code, raw text,
and the value `response.json()` produces (the type parameter stands for
parsed JSON). -/
structure HttpResponse (α : Type) where
  status_code : ℕ
  text : String
  body : α

/-- The message of the raised `OpenDotaError` (line 56-58). -/
def opendotaErrorMessage (status : ℕ) (text : String) : String :=
  "OpenDota API request failed with status " ++ toString status ++ ": " ++ text

/-- `OpenDotaClient.get` (lines 29-59) after a transport-error-free
response: raise `OpenDotaError` when `status_code >= 400`, otherwise return
the parsed body. -/
def OpenDotaClient.get {α : Type} (resp : HttpResponse α) : Except String α :=
  if 400 ≤ resp.status_code then
    .error (opendotaErrorMessage resp.status_code resp.text)
  else .ok resp.body

/-! ### The role labeler (`label_ability_roles.py`) -/

/-- The session state of the labeling loop: the `labels` dictionary and the
session `history` list (most recent change first). -/
structure LabelState where
  labels : List (String × String)
  history : List (String × Option String)
deriving DecidableEq

/-- Pressing `c`/`s`/`b` on ability `name` (lines 186-198): when the new
label differs from the current one, push `(name, previous)` on the history
and assign; otherwise nothing changes and no history entry is recorded. -/
def applyLabel (st : LabelState) (name newLabel : String) : LabelState :=
  let prev := st.labels.lookup name
  if prev ≠ some newLabel then
    ⟨assocSet st.labels name newLabel, (name, prev) :: st.history⟩
  else st

/-- Pressing `u` (lines 165-176): pop the most recent history entry and
revert it — remove the label if there was none before, else restore the
previous value; with an empty history nothing changes. -/
def applyUndo (st : LabelState) : LabelState :=
  match st.history with
  | [] => st
  | (n, prev) :: rest =>
    ⟨match prev with
      | none => assocPop st.labels n
      | some v => assocSet st.labels n v, rest⟩

/-! ### Claims about the combo matcher -/

/-- A row is emitted by `collectPairs` exactly when some pair record decides
to it. -/
theorem mem_collectPairs (sel : List String)
    (abilityOwners : List (String × List String))
    (selectedAbilityNames : List String) (pairs : List PairRec) (r : ComboRow) :
    r ∈ collectPairs sel abilityOwners selectedAbilityNames pairs ↔
      ∃ p ∈ pairs,
        pairDecision (sel.map canon) abilityOwners
          (selectedAbilityNames.map canon) p = some r := by
  simp [collectPairs, List.mem_filterMap]

/-- With both tokens present, nonempty, and canonically distinct, the loop
body reduces to the `ok` test. -/
theorem pairDecision_reduce (selH : List String)
    (owners : List (String × List String)) (selAb : List String) (p : PairRec)
    (s1 s2 : String) (ha1 : p.a1 = some s1) (ha2 : p.a2 = some s2)
    (hne1 : s1 ≠ "") (hne2 : s2 ≠ "") (hc : canon s1 ≠ canon s2) :
    pairDecision selH owners selAb p =
      if pairOk selH owners selAb (canon s1) (canon s2) then
        some ⟨s1, s2, orNull p.a1_img, orNull p.a2_img, p.synergy⟩
      else none := by
  simp [pairDecision, ha1, ha2, hne1, hne2, hc]

/-- C7: a pair record whose two tokens canonicalize to the same string is
rejected by the matcher, for every selection and owner map, and contributes
no row to `collectPairs`. -/
theorem c7_self_pair_rejected (p : PairRec) (s1 s2 : String)
    (ha1 : p.a1 = some s1) (ha2 : p.a2 = some s2) (heq : canon s1 = canon s2) :
    (∀ selH owners selAb, pairDecision selH owners selAb p = none) ∧
    (∀ sel owners names pairs,
      collectPairs sel owners names (p :: pairs) =
        collectPairs sel owners names pairs) := by
  have hdec : ∀ (selH : List String) (owners : List (String × List String))
      (selAb : List String), pairDecision selH owners selAb p = none := by
    intro selH owners selAb
    by_cases h : s1 = "" ∨ s2 = ""
    · simp [pairDecision, ha1, ha2, h]
    · simp [pairDecision, ha1, ha2, h, heq]
  exact ⟨hdec, fun sel owners names pairs => by
    simp [collectPairs, List.filterMap_cons, hdec]⟩

/-- Witness for `c7_self_pair_rejected`: the tokens `X` and `x.` canonicalize
identically, so the pair is rejected. -/
theorem c7_self_pair_rejected_witness :
    pairDecision ["ursa"] [] [] ⟨some "X", some "x.", none, none, none⟩ = none :=
  (c7_self_pair_rejected ⟨some "X", some "x.", none, none, none⟩ "X" "x."
    rfl rfl (by decide)).1 ["ursa"] [] []

/-- For two tokens classified as selected abilities, `ok` holds exactly when
some selected owner of the first differs from some selected owner of the
second. -/
theorem pairOk_ability_ability (selH : List String)
    (owners : List (String × List String)) (selAb : List String)
    (a1n a2n : String) (os1 os2 : List String)
    (ho1 : owners.lookup a1n = some os1) (ho2 : owners.lookup a2n = some os2)
    (hs1 : a1n ∈ selAb) (hs2 : a2n ∈ selAb) :
    (pairOk selH owners selAb a1n a2n = true ↔
      ∃ h1 ∈ os1, h1 ∈ selH ∧ ∃ h2 ∈ os2, h2 ∈ selH ∧ h1 ≠ h2) := by
  simp [pairOk, ho1, ho2, hs1, hs2, List.any_eq_true]

/-- C1 (amended): for a pair record whose two tokens are nonempty,
canonicalize to *distinct* keys, and both classify as selected abilities
(keys of `abilityOwners` that are also selected), the matcher includes the
pair — emitting its row — if and only if some selected owner of the first
ability differs from some selected owner of the second; otherwise the pair
is excluded. (The distinctness hypothesis is forced by the self-pair check,
see `c1_counterexample`.) -/
theorem c1_cross_hero_pair_iff (selH : List String)
    (owners : List (String × List String)) (selAb : List String) (p : PairRec)
    (s1 s2 : String) (os1 os2 : List String)
    (ha1 : p.a1 = some s1) (ha2 : p.a2 = some s2)
    (hne1 : s1 ≠ "") (hne2 : s2 ≠ "") (hc : canon s1 ≠ canon s2)
    (ho1 : owners.lookup (canon s1) = some os1)
    (ho2 : owners.lookup (canon s2) = some os2)
    (hs1 : canon s1 ∈ selAb) (hs2 : canon s2 ∈ selAb) :
    (pairDecision selH owners selAb p =
        some ⟨s1, s2, orNull p.a1_img, orNull p.a2_img, p.synergy⟩ ↔
      ∃ h1 ∈ os1, h1 ∈ selH ∧ ∃ h2 ∈ os2, h2 ∈ selH ∧ h1 ≠ h2) ∧
    (pairDecision selH owners selAb p = none ↔
      ¬ ∃ h1 ∈ os1, h1 ∈ selH ∧ ∃ h2 ∈ os2, h2 ∈ selH ∧ h1 ≠ h2) := by
  have hok := pairOk_ability_ability selH owners selAb (canon s1) (canon s2)
    os1 os2 ho1 ho2 hs1 hs2
  rw [pairDecision_reduce selH owners selAb p s1 s2 ha1 ha2 hne1 hne2 hc]
  by_cases h : pairOk selH owners selAb (canon s1) (canon s2) = true
  · have hr := hok.mp h
    rw [if_pos h]
    exact ⟨iff_of_true rfl hr, iff_of_false (by simp) (not_not_intro hr)⟩
  · have hr : ¬ ∃ h1 ∈ os1, h1 ∈ selH ∧ ∃ h2 ∈ os2, h2 ∈ selH ∧ h1 ≠ h2 :=
      fun hx => h (hok.mpr hx)
    rw [if_neg h]
    exact ⟨iff_of_false (by simp) hr, iff_of_true rfl hr⟩

/-- Counterexample to C1 as stated: tokens `Z` and `z!` both canonicalize to
the ability key `z`, owned by the two distinct selected heroes `a` and `b` —
so an owning hero of the first and a different owning hero of the second
both lie in the selection — yet the matcher excludes the pair (the self-pair
check fires before the ownership rule). -/
theorem c1_counterexample :
    (canon "Z" = "z" ∧ canon "z!" = "z") ∧
    (List.lookup (canon "Z") [("z", ["a", "b"])] = some ["a", "b"] ∧
      canon "Z" ∈ ["z"] ∧ canon "z!" ∈ ["z"]) ∧
    ("a" ∈ (["a", "b"] : List String) ∧ "b" ∈ (["a", "b"] : List String) ∧
      ("a" : String) ≠ "b") ∧
    pairDecision ["a", "b"] [("z", ["a", "b"])] ["z"]
      ⟨some "Z", some "z!", none, none, some 1⟩ = none := by
  decide

/-- Witness for `c1_cross_hero_pair_iff`: abilities `X` (owned by selected
`a`) and `Y` (owned by selected `b`) form a cross-hero pair and the row is
emitted. -/
theorem c1_cross_hero_pair_iff_witness :
    pairDecision ["a", "b"] [("x", ["a"]), ("y", ["b"])] ["x", "y"]
      ⟨some "X", some "Y", none, none, some 2⟩ =
      some ⟨"X", "Y", none, none, some 2⟩ :=
  (c1_cross_hero_pair_iff ["a", "b"] [("x", ["a"]), ("y", ["b"])] ["x", "y"]
    ⟨some "X", some "Y", none, none, some 2⟩ "X" "Y" ["a"] ["b"]
    rfl rfl (by decide) (by decide) (by decide) (by decide) (by decide)
    (by decide) (by decide)).1.mpr (by decide)

/-- A canonical token that is neither a selected hero nor a selected ability
key forces `ok` to be false (left token). -/
theorem pairOk_false_of_unresolved_left (selH : List String)
    (owners : List (String × List String)) (selAb : List String)
    (a1n a2n : String) (hh : a1n ∉ selH)
    (hab : owners.lookup a1n = none ∨ a1n ∉ selAb) :
    pairOk selH owners selAb a1n a2n = false := by
  rcases hab with hnone | hnotsel
  · cases ho2 : owners.lookup a2n <;> simp [pairOk, hnone, ho2, hh]
  · cases ho1 : owners.lookup a1n <;>
      cases ho2 : owners.lookup a2n <;>
        simp [pairOk, ho1, ho2, hh, hnotsel]

/-- A canonical token that is neither a selected hero nor a selected ability
key forces `ok` to be false (right token). -/
theorem pairOk_false_of_unresolved_right (selH : List String)
    (owners : List (String × List String)) (selAb : List String)
    (a1n a2n : String) (hh : a2n ∉ selH)
    (hab : owners.lookup a2n = none ∨ a2n ∉ selAb) :
    pairOk selH owners selAb a1n a2n = false := by
  rcases hab with hnone | hnotsel
  · cases ho1 : owners.lookup a1n <;> simp [pairOk, hnone, ho1, hh]
  · cases ho1 : owners.lookup a1n <;>
      cases ho2 : owners.lookup a2n <;>
        simp [pairOk, ho1, ho2, hh, hnotsel]

/-- Two hero tokens that are not ability keys force `ok` to be false. -/
theorem pairOk_false_of_bare_heroes (selH : List String)
    (owners : List (String × List String)) (selAb : List String)
    (a1n a2n : String) (ho1 : owners.lookup a1n = none)
    (ho2 : owners.lookup a2n = none) :
    pairOk selH owners selAb a1n a2n = false := by
  simp [pairOk, ho1, ho2]

/-- C3 (amended): a pair with a token that resolves to neither a selected
hero nor a selected ability is always dropped; a hero × hero pair is dropped
provided neither hero token is also an `abilityOwners` key. (The proviso is
forced: `load_high_skill` exposes every hero model as a pseudo-ability named
after the hero, so in the generated page two distinct selected hero names
are classified ability × ability and kept — see `c3_counterexample`.) -/
theorem c3_drop_unresolved_and_bare_hero_pairs (selH : List String)
    (owners : List (String × List String)) (selAb : List String) (p : PairRec)
    (s1 s2 : String) (ha1 : p.a1 = some s1) (ha2 : p.a2 = some s2) :
    ((canon s1 ∉ selH ∧ (owners.lookup (canon s1) = none ∨ canon s1 ∉ selAb)) ∨
     (canon s2 ∉ selH ∧ (owners.lookup (canon s2) = none ∨ canon s2 ∉ selAb)) →
      pairDecision selH owners selAb p = none) ∧
    (canon s1 ∈ selH → canon s2 ∈ selH →
      owners.lookup (canon s1) = none → owners.lookup (canon s2) = none →
      pairDecision selH owners selAb p = none) := by
  by_cases hemp : s1 = "" ∨ s2 = ""
  · constructor
    · intro _; simp [pairDecision, ha1, ha2, hemp]
    · intro _ _ _ _; simp [pairDecision, ha1, ha2, hemp]
  · push_neg at hemp
    by_cases hc : canon s1 = canon s2
    · constructor
      · intro _; simp [pairDecision, ha1, ha2, hemp.1, hemp.2, hc]
      · intro _ _ _ _; simp [pairDecision, ha1, ha2, hemp.1, hemp.2, hc]
    · rw [and_comm]
      constructor
      · intro h1 h2 ho1 ho2
        rw [pairDecision_reduce selH owners selAb p s1 s2 ha1 ha2 hemp.1 hemp.2 hc,
          if_neg]
        simp [pairOk_false_of_bare_heroes selH owners selAb _ _ ho1 ho2]
      · intro hun
        rw [pairDecision_reduce selH owners selAb p s1 s2 ha1 ha2 hemp.1 hemp.2 hc,
          if_neg]
        rcases hun with ⟨hh, hab⟩ | ⟨hh, hab⟩
        · simp [pairOk_false_of_unresolved_left selH owners selAb _ _ hh hab]
        · simp [pairOk_false_of_unresolved_right selH owners selAb _ _ hh hab]

/-- Counterexample to C3 as stated: in the generated page the hero models of
`Ursa` and `Lion` are exposed as pseudo-abilities named `Ursa` and `Lion`
(appended by `load_high_skill`), each owned by its own selected hero; the
pair record `(Ursa, Lion)` — both tokens canonicalizing to selected hero
names — is therefore classified ability × ability, passes the cross-hero
test, and is emitted instead of being dropped. -/
theorem c3_counterexample :
    (canon "Ursa" ∈ ["Ursa", "Lion"].map canon ∧
      canon "Lion" ∈ ["Ursa", "Lion"].map canon) ∧
    collectPairs ["Ursa", "Lion"]
      (abilityOwnersOf (collectAbilityRows
        [("Ursa", loadHighSkillAbilityNames "Ursa" ["Overpower"]),
         ("Lion", loadHighSkillAbilityNames "Lion" ["Hex"])] ["Ursa", "Lion"]))
      (selectedAbilityNamesOf (collectAbilityRows
        [("Ursa", loadHighSkillAbilityNames "Ursa" ["Overpower"]),
         ("Lion", loadHighSkillAbilityNames "Lion" ["Hex"])] ["Ursa", "Lion"]))
      [⟨some "Ursa", some "Lion", none, none, some 1⟩] =
      [⟨"Ursa", "Lion", none, none, some 1⟩] := by
  decide

/-- Witness for `c3_drop_unresolved_and_bare_hero_pairs`: a pair whose first
token resolves to nothing is dropped. -/
theorem c3_drop_unresolved_witness :
    pairDecision ["a"] [] [] ⟨some "Q", some "R", none, none, none⟩ = none :=
  (c3_drop_unresolved_and_bare_hero_pairs ["a"] [] []
    ⟨some "Q", some "R", none, none, none⟩ "Q" "R" rfl rfl).1
    (Or.inl (by decide))

/-! ### Claims about `canon` -/

theorem char_eq_of_toNat_eq (c d : Char) (h : c.toNat = d.toNat) : c = d :=
  Char.eq_of_val_eq (UInt32.ext h)

theorem char_toNat_ofNat (n : Nat) (h : n < 0xd800) : (Char.ofNat n).toNat = n := by
  simp [Char.ofNat, Char.toNat, Nat.isValidChar, h, Char.ofNatAux, UInt32.toNat,
    BitVec.toNat_ofNatLt]

theorem toNat_jsLowerChar_lt (c : Char) (h : tameChar c = true) :
    (jsLowerChar c).toNat < 0x2020 := by
  simp only [tameChar, Bool.or_eq_true, decide_eq_true_eq] at h
  unfold jsLowerChar
  split
  · rw [char_toNat_ofNat _ (by omega)]; omega
  · omega

theorem nfkdChar_jsLowerChar (c : Char) (h : tameChar c = true) :
    nfkdChar (jsLowerChar c) = [jsLowerChar c] := by
  have hlt := toNat_jsLowerChar_lt c h
  rw [nfkdChar, if_neg]
  intro he
  have hbold : (Char.ofNat 0x1D400).toNat = 0x1D400 := by decide
  have : (jsLowerChar c).toNat = 0x1D400 := by rw [he, hbold]
  omega

theorem replQuote_cases (c : Char) :
    replQuote c = c ∨ (replQuote c).toNat = 39 := by
  rw [replQuote]; split_ifs with h
  · right; decide
  · left; rfl

theorem replDQuote_cases (c : Char) :
    replDQuote c = c ∨ (replDQuote c).toNat = 34 := by
  rw [replDQuote]; split_ifs with h
  · right; decide
  · left; rfl

theorem replDash_cases (c : Char) :
    replDash c = c ∨ (replDash c).toNat = 45 := by
  rw [replDash]; split_ifs with h
  · right; decide
  · left; rfl

theorem replDotUnderscore_cases (c : Char) :
    replDotUnderscore c = c ∨ (replDotUnderscore c).toNat = 32 := by
  rw [replDotUnderscore]; split_ifs with h
  · right; decide
  · left; rfl

theorem replDotUnderscore_ne (c : Char) :
    (replDotUnderscore c).toNat ≠ 46 ∧ (replDotUnderscore c).toNat ≠ 95 := by
  rw [replDotUnderscore]; split_ifs with h
  · exact ⟨by decide, by decide⟩
  · simp only [Bool.or_eq_true, decide_eq_true_eq] at h
    push_neg at h
    exact h

/-- Stable characters pass through every replacement pass unchanged. -/
theorem canonChar_stable_fix (c : Char) (h : stableChar c = true) :
    canonChar c = c := by
  simp only [stableChar, Bool.or_eq_true, Bool.and_eq_true, decide_eq_true_eq] at h
  rw [canonChar, replQuote, if_neg (by simp; omega), replDQuote,
    if_neg (by simp; omega), replDash, if_neg (by simp; omega),
    replDotUnderscore, if_neg (by simp; omega), replNonWord, if_neg]
  simp only [isWordChar, jsSpace, Bool.not_eq_true', Bool.not_eq_false]
  simp only [Bool.or_eq_true, Bool.and_eq_true, decide_eq_true_eq]
  omega

theorem canonCharLower_fix (c : Char) (h : stableChar c = true ∨ c = ' ') :
    canonCharLower c = c := by
  rcases h with h | rfl
  · have hs : jsLowerChar c = c := by
      simp only [stableChar, Bool.or_eq_true, Bool.and_eq_true,
        decide_eq_true_eq] at h
      rw [jsLowerChar, if_neg (by omega)]
    rw [canonCharLower, hs, canonChar_stable_fix c h]
  · decide

theorem jsLowerChar_not_upper (c : Char) :
    ¬(65 ≤ (jsLowerChar c).toNat ∧ (jsLowerChar c).toNat ≤ 90) := by
  rw [jsLowerChar]; split_ifs with h
  · rw [char_toNat_ofNat _ (by omega)]; omega
  · omega

/-- The replacement passes send every non-uppercase character to a space
character or a stable character. -/
theorem canonChar_out (d : Char)
    (hup : ¬(65 ≤ d.toNat ∧ d.toNat ≤ 90)) :
    jsSpace (canonChar d) = true ∨ stableChar (canonChar d) = true := by
  rw [canonChar]
  set e := replDotUnderscore (replDash (replDQuote (replQuote d))) with he
  have hrange : e.toNat = d.toNat ∨ e.toNat = 39 ∨ e.toNat = 34 ∨
      e.toNat = 45 ∨ e.toNat = 32 := by
    rcases replDotUnderscore_cases (replDash (replDQuote (replQuote d))) with h4 | h4
    · rw [he, h4]
      rcases replDash_cases (replDQuote (replQuote d)) with h3 | h3
      · rw [h3]
        rcases replDQuote_cases (replQuote d) with h2 | h2
        · rw [h2]
          rcases replQuote_cases d with h1 | h1
          · rw [h1]; left; rfl
          · right; left; exact h1
        · right; right; left; exact h2
      · right; right; right; left; exact h3
    · rw [he]; right; right; right; right; exact h4
  have hne := replDotUnderscore_ne (replDash (replDQuote (replQuote d)))
  rw [← he] at hne
  rw [replNonWord]
  split_ifs with hkeep
  · left; decide
  · simp only [Bool.not_eq_true', Bool.not_eq_false, Bool.or_eq_true,
      Bool.and_eq_true, decide_eq_true_eq, isWordChar, jsSpace] at hkeep
    simp only [stableChar, jsSpace, Bool.or_eq_true, Bool.and_eq_true,
      decide_eq_true_eq]
    omega

theorem canonCharLower_out (c : Char) :
    jsSpace (canonCharLower c) = true ∨ stableChar (canonCharLower c) = true :=
  canonChar_out (jsLowerChar c) (jsLowerChar_not_upper c)

theorem stableChar_not_space (c : Char) (h : stableChar c = true) :
    jsSpace c = false := by
  simp only [stableChar, Bool.or_eq_true, Bool.and_eq_true, decide_eq_true_eq] at h
  simp only [jsSpace, Bool.or_eq_true, Bool.and_eq_true, decide_eq_true_eq,
    Bool.or_eq_false_iff, Bool.and_eq_false_iff, decide_eq_false_iff_not]
  omega

theorem flatMap_nfkd_tame (s : List Char) (h : ∀ c ∈ s, tameChar c = true) :
    ((s.map jsLowerChar).flatMap nfkdChar).map canonChar = s.map canonCharLower := by
  induction s with
  | nil => simp
  | cons c cs ih =>
    rw [List.map_cons, List.flatMap_cons, List.map_cons,
      nfkdChar_jsLowerChar c (h c (List.mem_cons_self c cs)), List.map_append]
    rw [ih (fun d hd => h d (List.mem_cons_of_mem c hd))]
    rw [List.map_cons, List.map_nil, List.singleton_append]
    rfl

/-- On strings over the faithfully modelled alphabet, `canon` is the
character-wise pipeline followed by whitespace collapsing and trimming. -/
theorem canonList_tame (s : List Char) (h : ∀ c ∈ s, tameChar c = true) :
    canonList s = trimChars (collapseSpaces (s.map canonCharLower)) := by
  rw [canonList, flatMap_nfkd_tame s h]
theorem mem_collapseAux (l : List Char) :
    ∀ b c, c ∈ collapseAux b l → c = ' ' ∨ (c ∈ l ∧ jsSpace c = false) := by
  induction l with
  | nil => intro b c h; simp [collapseAux] at h
  | cons d rest ih =>
    intro b c h
    by_cases hd : jsSpace d
    · rcases b with _ | _
      · simp only [collapseAux, hd, if_true, if_false, Bool.false_eq_true] at h
        rcases List.mem_cons.mp h with rfl | h
        · exact Or.inl rfl
        · rcases ih true c h with h1 | ⟨h1, h2⟩
          · exact Or.inl h1
          · exact Or.inr ⟨List.mem_cons_of_mem d h1, h2⟩
      · simp only [collapseAux, hd, if_true] at h
        rcases ih true c h with h1 | ⟨h1, h2⟩
        · exact Or.inl h1
        · exact Or.inr ⟨List.mem_cons_of_mem d h1, h2⟩
    · simp only [collapseAux, hd, if_false, Bool.false_eq_true] at h
      rcases List.mem_cons.mp h with rfl | h
      · exact Or.inr ⟨List.mem_cons_self c rest, by simp [hd]⟩
      · rcases ih false c h with h1 | ⟨h1, h2⟩
        · exact Or.inl h1
        · exact Or.inr ⟨List.mem_cons_of_mem d h1, h2⟩

theorem collapseAux_true_head (l : List Char) :
    ∀ c r, collapseAux true l = c :: r → jsSpace c = false := by
  induction l with
  | nil => intro c r h; simp [collapseAux] at h
  | cons d rest ih =>
    intro c r h
    by_cases hd : jsSpace d
    · simp only [collapseAux, hd, if_true] at h
      exact ih c r h
    · simp only [collapseAux, hd, if_false, Bool.false_eq_true] at h
      obtain ⟨rfl, -⟩ := List.cons.inj h
      simp [hd]

theorem chain_collapseAux (l : List Char) :
    ∀ b, List.Chain' (fun a b => ¬(jsSpace a = true ∧ jsSpace b = true))
      (collapseAux b l) := by
  induction l with
  | nil => intro b; simp [collapseAux]
  | cons d rest ih =>
    intro b
    by_cases hd : jsSpace d
    · rcases b with _ | _
      · simp only [collapseAux, hd, if_true, if_false, Bool.false_eq_true]
        rw [List.chain'_cons']
        refine ⟨?_, ih true⟩
        intro y hy
        cases hh : collapseAux true rest with
        | nil => rw [hh] at hy; simp at hy
        | cons c r =>
          rw [hh] at hy
          simp only [List.head?_cons, Option.mem_some_iff] at hy
          have hc := collapseAux_true_head rest c r hh
          intro hcon
          rw [← hy, hc] at hcon
          exact absurd hcon.2 (by simp)
      · simp only [collapseAux, hd, if_true]
        exact ih true
    · simp only [collapseAux, hd, if_false, Bool.false_eq_true]
      rw [List.chain'_cons']
      refine ⟨?_, ih false⟩
      intro y hy hcon
      exact absurd hcon.1 (by simp [hd])

theorem collapseAux_true_eq_false (l : List Char)
    (h : ∀ c r, l = c :: r → jsSpace c = false) :
    collapseAux true l = collapseAux false l := by
  cases l with
  | nil => rfl
  | cons c r =>
    have hc := h c r rfl
    simp only [collapseAux, hc, if_false, Bool.false_eq_true]

theorem collapseAux_false_fix (l : List Char)
    (h1 : ∀ c ∈ l, jsSpace c = true → c = ' ')
    (h2 : List.Chain' (fun a b => ¬(jsSpace a = true ∧ jsSpace b = true)) l) :
    collapseAux false l = l := by
  induction l with
  | nil => rfl
  | cons d rest ih =>
    have htail := (List.chain'_cons'.mp h2).2
    have hhead := (List.chain'_cons'.mp h2).1
    have ihrest := ih (fun c hc hs => h1 c (List.mem_cons_of_mem d hc) hs) htail
    by_cases hd : jsSpace d
    · have hd' : d = ' ' := h1 d (List.mem_cons_self d rest) hd
      simp only [collapseAux, hd, if_true, if_false, Bool.false_eq_true]
      rw [collapseAux_true_eq_false rest ?_, ihrest, hd']
      intro c r hr
      have hcr := hhead c (by rw [hr]; simp)
      by_contra hcs
      simp only [Bool.not_eq_false] at hcs
      exact hcr ⟨hd, hcs⟩
    · simp only [collapseAux, hd, if_false, Bool.false_eq_true]
      rw [ihrest]

theorem dropWhile_head_not (p : Char → Bool) (l : List Char) :
    ∀ c, (l.dropWhile p).head? = some c → p c = false := by
  induction l with
  | nil => intro c h; simp [List.dropWhile] at h
  | cons d rest ih =>
    intro c h
    by_cases hd : p d
    · rw [List.dropWhile_cons, if_pos hd] at h
      exact ih c h
    · rw [List.dropWhile_cons, if_neg hd] at h
      simp only [List.head?_cons, Option.some_inj] at h
      rw [← h]
      simp [hd]

theorem trimChars_front (l : List Char) :
    trimChars l <+: l.dropWhile jsSpace := by
  rw [trimChars, ← List.reverse_suffix, List.reverse_reverse]
  exact List.dropWhile_suffix jsSpace

theorem trimChars_within (l : List Char) : trimChars l <:+: l :=
  List.IsInfix.trans ( List.IsPrefix.isInfix (trimChars_front l))
    ( List.IsSuffix.isInfix (List.dropWhile_suffix jsSpace))

theorem trimChars_head_not (l : List Char) :
    ∀ c, (trimChars l).head? = some c → jsSpace c = false := by
  intro c h
  obtain ⟨t, ht⟩ := trimChars_front l
  cases hl : trimChars l with
  | nil => rw [hl] at h; simp at h
  | cons c0 r =>
    rw [hl] at h
    simp only [List.head?_cons, Option.some_inj] at h
    apply dropWhile_head_not jsSpace l c
    rw [← ht, hl, ← h]
    simp

theorem trimChars_getLast_not (l : List Char) :
    ∀ c, (trimChars l).getLast? = some c → jsSpace c = false := by
  intro c h
  rw [trimChars, List.getLast?_reverse] at h
  exact dropWhile_head_not jsSpace _ c h

theorem trimChars_eq_self (l : List Char)
    (hh : ∀ c, l.head? = some c → jsSpace c = false)
    (hl : ∀ c, l.getLast? = some c → jsSpace c = false) :
    trimChars l = l := by
  have h1 : l.dropWhile jsSpace = l := by
    cases l with
    | nil => rfl
    | cons c r =>
      have := hh c (by simp)
      rw [List.dropWhile_cons, if_neg (by simp [this])]
  rw [trimChars, h1]
  have h2 : l.reverse.dropWhile jsSpace = l.reverse := by
    cases hrev : l.reverse with
    | nil => rfl
    | cons c r =>
      have hc : l.getLast? = some c := by
        rw [← List.head?_reverse, hrev]; rfl
      have := hl c hc
      rw [List.dropWhile_cons, if_neg (by simp [this])]
  rw [h2, List.reverse_reverse]

theorem canonList_chars (s : List Char) (h : ∀ c ∈ s, tameChar c = true) :
    ∀ c ∈ canonList s, stableChar c = true ∨ c = ' ' := by
  intro c hc
  rw [canonList_tame s h] at hc
  have hc2 : c ∈ collapseSpaces (s.map canonCharLower) :=
    (trimChars_within _).subset hc
  rcases mem_collapseAux (s.map canonCharLower) false c hc2 with rfl | ⟨hm, hs⟩
  · right; rfl
  · left
    obtain ⟨d, _, rfl⟩ := List.mem_map.mp hm
    rcases canonCharLower_out d with hsp | hst
    · rw [hsp] at hs; cases hs
    · exact hst

theorem tame_of_stable_or_space (c : Char) (h : stableChar c = true ∨ c = ' ') :
    tameChar c = true := by
  rcases h with h | rfl
  · simp only [stableChar, Bool.or_eq_true, Bool.and_eq_true,
      decide_eq_true_eq] at h
    simp only [tameChar, Bool.or_eq_true, Bool.and_eq_true, decide_eq_true_eq]
    omega
  · decide

theorem canonList_idem (s : List Char) (h : ∀ c ∈ s, tameChar c = true) :
    canonList (canonList s) = canonList s := by
  have hchars := canonList_chars s h
  have htame : ∀ c ∈ canonList s, tameChar c = true :=
    fun c hc => tame_of_stable_or_space c (hchars c hc)
  rw [canonList_tame (canonList s) htame]
  have hmap : (canonList s).map canonCharLower = canonList s := by
    conv_rhs => rw [← List.map_id (canonList s)]
    exact List.map_congr_left (fun c hc => canonCharLower_fix c (hchars c hc))
  rw [hmap]
  have hcollapse : collapseSpaces (canonList s) = canonList s := by
    rw [collapseSpaces]
    apply collapseAux_false_fix
    · intro c hc hs
      rcases hchars c hc with hst | rfl
      · rw [stableChar_not_space c hst] at hs; cases hs
      · rfl
    · rw [canonList_tame s h]
      exact List.Chain'.infix (chain_collapseAux (s.map canonCharLower) false)
        (trimChars_within _)
  rw [hcollapse]
  apply trimChars_eq_self
  · rw [canonList_tame s h]
    exact trimChars_head_not _
  · rw [canonList_tame s h]
    exact trimChars_getLast_not _

theorem map_canonCharLower_of_variant (s t : List Char)
    (h : List.Forall₂ (fun c d => variantChar c d = true) s t) :
    s.map canonCharLower = t.map canonCharLower := by
  induction h with
  | nil => rfl
  | cons hcd _ ih =>
    simp only [variantChar, Bool.and_eq_true, decide_eq_true_eq] at hcd
    simp only [List.map_cons, hcd.2, ih]

theorem tame_of_variant (s t : List Char)
    (h : List.Forall₂ (fun c d => variantChar c d = true) s t) :
    (∀ c ∈ s, tameChar c = true) ∧ (∀ d ∈ t, tameChar d = true) := by
  induction h with
  | nil => exact ⟨by simp, by simp⟩
  | cons hcd htl ih =>
    simp only [variantChar, Bool.and_eq_true, decide_eq_true_eq] at hcd
    constructor
    · intro c hc
      rcases List.mem_cons.mp hc with rfl | hc
      · exact hcd.1.1
      · exact ih.1 c hc
    · intro d hd
      rcases List.mem_cons.mp hd with rfl | hd
      · exact hcd.1.2
      · exact ih.2 d hd

theorem canonList_of_variant (s t : List Char)
    (h : List.Forall₂ (fun c d => variantChar c d = true) s t) :
    canonList s = canonList t := by
  obtain ⟨hs, ht⟩ := tame_of_variant s t h
  rw [canonList_tame s hs, canonList_tame t ht,
    map_canonCharLower_of_variant s t h]

/-- C4 (amended): on strings over the faithfully modelled alphabet (ASCII
plus the quote/dash variants) `canon` is idempotent, and two strings whose
characters are pointwise `canon`-variants — equal up to letter case,
quote/dash variant, or punctuation that `canon` normalizes to a space —
canonicalize identically; in particular the specification's example pair
does. The alphabet restriction on idempotence is forced: lowercasing
precedes NFKD normalization, so compatibility characters whose decomposition
introduces uppercase letters break it (see `c4_counterexample`). -/
theorem c4_canon_idem_and_variants :
    (∀ s : String, (∀ c ∈ s.data, tameChar c = true) →
      canon (canon s) = canon s) ∧
    (∀ s t : String,
      List.Forall₂ (fun c d => variantChar c d = true) s.data t.data →
      canon s = canon t) ∧
    canon heroStrikeCurly = canon heroStrikeAscii := by
  refine ⟨?_, ?_, ?_⟩
  · intro s hs
    have h1 : canon (canon s) = ⟨canonList (canonList s.data)⟩ := rfl
    have h2 : canon s = ⟨canonList s.data⟩ := rfl
    rw [h1, h2]
    exact congrArg String.mk (canonList_idem s.data hs)
  · intro s t h
    exact congrArg String.mk (canonList_of_variant s.data t.data h)
  · decide

/-- Counterexample to C4 as stated: `canon` is not idempotent on every
string. The one-character string U+1D400 MATHEMATICAL BOLD CAPITAL A (no
lowercase mapping; NFKD compatibility decomposition `A`) canonicalizes to
`A`, which canonicalizes further to `a`. -/
theorem c4_counterexample :
    canon (String.mk [Char.ofNat 0x1D400]) = "A" ∧
    canon (canon (String.mk [Char.ofNat 0x1D400])) = "a" ∧
    canon (canon (String.mk [Char.ofNat 0x1D400])) ≠
      canon (String.mk [Char.ofNat 0x1D400]) :=
  ⟨by decide, by decide, by decide⟩

/-- Witness for `c4_canon_idem_and_variants`: idempotence at an ASCII string
with punctuation, and case-variant identification at a concrete pair. -/
theorem c4_canon_idem_and_variants_witness :
    canon (canon "Ursa!!") = canon "Ursa!!" ∧ canon "AB-c" = canon "ab-c" :=
  ⟨c4_canon_idem_and_variants.1 "Ursa!!" (by decide),
    c4_canon_idem_and_variants.2.1 "AB-c" "ab-c" (by decide)⟩

/-! ### Claims about `_to_float` -/

/-- Lists without digits have an empty digit prefix. -/
theorem takeWhile_digit_nil (l : List Char)
    (h : ∀ x ∈ l, Char.isDigit x = false) :
    l.takeWhile Char.isDigit = [] := by
  cases l with
  | nil => rfl
  | cons c r =>
    rw [List.takeWhile_cons,
      if_neg (by rw [h c (List.mem_cons_self c r)]; simp)]

/-- Without a digit anywhere, the body regex cannot match. -/
theorem numBody_none (cs : List Char)
    (h : ∀ x ∈ cs, Char.isDigit x = false) : numBody cs = none := by
  rw [numBody, takeWhile_digit_nil cs h]
  simp only [List.length_nil, List.drop_zero]
  cases cs with
  | nil => simp
  | cons c r =>
    have hr : ∀ x ∈ r, Char.isDigit x = false :=
      fun x hx => h x (List.mem_cons_of_mem _ hx)
    simp only [takeWhile_digit_nil r hr]
    split_ifs <;> simp_all

/-- Without a digit anywhere, no position matches. -/
theorem matchNumAt_none (cs : List Char)
    (h : ∀ x ∈ cs, Char.isDigit x = false) : matchNumAt cs = none := by
  cases cs with
  | nil => rfl
  | cons c rest =>
    rw [matchNumAt]
    split_ifs with hs
    · rw [numBody_none rest (fun x hx => h x (List.mem_cons_of_mem c hx))]
      rfl
    · exact numBody_none (c :: rest) h

theorem searchNum_none (l : List Char)
    (h : ∀ x ∈ l, Char.isDigit x = false) : searchNum l = none := by
  induction l with
  | nil => rfl
  | cons c rest ih =>
    rw [searchNum, matchNumAt_none (c :: rest) h]
    exact ih (fun x hx => h x (List.mem_cons_of_mem c hx))

/-- A nonempty leading digit run guarantees a body match. -/
theorem numBody_isSome_of_take (cs : List Char)
    (h : cs.takeWhile Char.isDigit ≠ []) : (numBody cs).isSome = true := by
  rw [numBody]
  split <;> split_ifs <;> rfl

/-- A digit at the current position guarantees an anchored match. -/
theorem matchNumAt_isSome_of_digit (c : Char) (rest : List Char)
    (h : Char.isDigit c = true) : (matchNumAt (c :: rest)).isSome = true := by
  rw [matchNumAt]
  have hns : ¬(c = '+' ∨ c = '-') := by
    rintro (rfl | rfl) <;> exact absurd h (by decide)
  rw [if_neg hns]
  apply numBody_isSome_of_take
  rw [List.takeWhile_cons, if_pos h]
  simp

/-- `re.search` of `_num` succeeds exactly on texts containing a digit. -/
theorem searchNum_isSome_iff (l : List Char) :
    (searchNum l).isSome = true ↔ l.any Char.isDigit = true := by
  constructor
  · intro h
    by_contra hno
    rw [Bool.not_eq_true] at hno
    have hall : ∀ x ∈ l, Char.isDigit x = false := by
      intro x hx
      by_contra hxd
      rw [Bool.not_eq_false] at hxd
      have : l.any Char.isDigit = true := List.any_eq_true.mpr ⟨x, hx, hxd⟩
      rw [this] at hno
      cases hno
    rw [searchNum_none l hall] at h
    cases h
  · intro h
    induction l with
    | nil => cases h
    | cons c rest ih =>
      rw [List.any_cons, Bool.or_eq_true] at h
      rw [searchNum]
      rcases h with hc | hrest
      · have hsome := matchNumAt_isSome_of_digit c rest hc
        cases hm : matchNumAt (c :: rest) with
        | none => rw [hm] at hsome; cases hsome
        | some t => rfl
      · cases hm : matchNumAt (c :: rest) with
        | none => exact ih hrest
        | some t => rfl

/-- Removing commas removes no digits. -/
theorem any_digit_removeCommas (l : List Char) :
    (removeCommas l).any Char.isDigit = l.any Char.isDigit := by
  induction l with
  | nil => rfl
  | cons c rest ih =>
    rw [removeCommas, List.filter_cons]
    by_cases hc : c = ','
    · subst hc
      rw [if_neg (by decide), List.any_cons]
      rw [removeCommas] at ih
      rw [ih]
      simp [Char.isDigit]
    · rw [if_pos (by simpa using hc), List.any_cons, List.any_cons]
      rw [removeCommas] at ih
      rw [ih]

/-- C9: `_to_float` is a total function into an option (it cannot raise),
returns `None` for a `None` argument, succeeds exactly when the input
contains a digit — in particular absent or unparseable fields give `None` —
and extracts the first numeric token's value, tolerating thousands
separators and stray text. -/
theorem c9_to_float_characterization :
    _to_float none = none ∧
    (∀ s : String,
      (_to_float (some s)).isSome = true ↔ s.data.any Char.isDigit = true) ∧
    _to_float (some "1,234.5 xp") = some (2469 / 2) ∧
    _to_float (some "a9b8") = some 9 ∧
    _to_float (some "-.5c") = some (-(1 / 2)) ∧
    _to_float (some "N/A") = none := by
  refine ⟨rfl, ?_, ?_, rfl, ?_, rfl⟩
  · intro s
    have hiso : ∀ o : Option (List Char), (o.map tokenVal).isSome = o.isSome :=
      fun o => by cases o <;> rfl
    rw [_to_float, hiso, searchNum_isSome_iff, any_digit_removeCommas]
  · have h : _to_float (some "1,234.5 xp") =
        some ((1234 : ℚ) + (5 : ℚ) / 10 ^ 1) := rfl
    rw [h]
    norm_num
  · have h : _to_float (some "-.5c") =
        some (-((0 : ℚ) + (5 : ℚ) / 10 ^ 1)) := rfl
    rw [h]
    norm_num
/-! ### Claims about the scoring functions -/

/-- C2: both `adjusted_score` definitions return 0 when `games == 0` and
otherwise `(wins/games) * ln(games+1)^gamma`, exactly the specification's
formula; the default `gamma` is 0.69. -/
theorem c2_adjusted_score_matches_spec :
    (∀ (wins games : ℕ) (gamma : ℝ),
      HeroStats.adjusted_score wins games gamma =
        adjustedScoreSpec wins games gamma) ∧
    (∀ (wins games : ℕ) (gamma : ℝ),
      TeamAnalyzer.adjusted_score wins games gamma =
        adjustedScoreSpec wins games gamma) ∧
    defaultGamma = 69 / 100 ∧
    (∀ gamma : ℝ, HeroStats.adjusted_score 0 0 gamma = 0) := by
  refine ⟨fun w g γ => rfl, fun w g γ => rfl, by norm_num [defaultGamma],
    fun γ => by simp [HeroStats.adjusted_score]⟩

/-! ### Claims about the OpenDota client -/

/-- C8 (amended): `OpenDotaClient.get` returns the parsed body for every
2xx response (as claimed), but the raise boundary is `status_code >= 400`,
not "non-2xx": every response below 400 — including 1xx and 3xx — returns
the parsed body, and every response at 400 or above raises the typed error
carrying the status code and response text. -/
theorem c8_get_status_threshold :
    (∀ (α : Type) (resp : HttpResponse α),
      200 ≤ resp.status_code → resp.status_code ≤ 299 →
        OpenDotaClient.get resp = Except.ok resp.body) ∧
    (∀ (α : Type) (resp : HttpResponse α), 400 ≤ resp.status_code →
      OpenDotaClient.get resp =
        Except.error (opendotaErrorMessage resp.status_code resp.text)) ∧
    (∀ (α : Type) (resp : HttpResponse α), resp.status_code < 400 →
      OpenDotaClient.get resp = Except.ok resp.body) := by
  refine ⟨?_, ?_, ?_⟩
  · intro α resp h1 h2
    rw [OpenDotaClient.get, if_neg (by omega)]
  · intro α resp h
    rw [OpenDotaClient.get, if_pos h]
  · intro α resp h
    rw [OpenDotaClient.get, if_neg (by omega)]

/-- Counterexample to C8 as stated: a 302 response is not 2xx, yet `get`
returns the parsed body instead of raising. -/
theorem c8_counterexample :
    OpenDotaClient.get (⟨302, "Found", (7 : ℕ)⟩ : HttpResponse ℕ) =
      Except.ok 7 ∧ ¬(200 ≤ 302 ∧ 302 ≤ 299) :=
  ⟨rfl, by decide⟩

/-- Witness for `c8_get_status_threshold`: a 404 response raises the typed
error with status and body, a 200 response returns the body. -/
theorem c8_get_status_threshold_witness :
    OpenDotaClient.get (⟨404, "not found", (0 : ℕ)⟩ : HttpResponse ℕ) =
      Except.error (opendotaErrorMessage 404 "not found") ∧
    OpenDotaClient.get (⟨200, "", (5 : ℕ)⟩ : HttpResponse ℕ) = Except.ok 5 :=
  ⟨c8_get_status_threshold.2.1 ℕ ⟨404, "not found", 0⟩ (by decide),
    c8_get_status_threshold.1 ℕ ⟨200, "", 5⟩ (by decide) (by decide)⟩

/-! ### Claims about the role labeler -/

theorem assocPop_assocSet_of_lookup_none (m : List (String × String))
    (k v : String) (h : m.lookup k = none) :
    assocPop (assocSet m k v) k = m := by
  induction m with
  | nil => simp [assocSet, assocPop]
  | cons kv rest ih =>
    obtain ⟨k0, v0⟩ := kv
    by_cases hk : k = k0
    · subst hk
      simp [List.lookup] at h
    · have hbeq : (k == k0) = false := by simpa using hk
      simp only [List.lookup, hbeq] at h
      rw [assocSet, if_neg (fun hh => hk hh.symm), assocPop,
        if_neg (fun hh => hk hh.symm), ih h]

theorem assocSet_assocSet_of_lookup_some (m : List (String × String))
    (k v0 v : String) (h : m.lookup k = some v0) :
    assocSet (assocSet m k v) k v0 = m := by
  induction m with
  | nil => simp [List.lookup] at h
  | cons kv rest ih =>
    obtain ⟨k1, v1⟩ := kv
    by_cases hk : k = k1
    · subst hk
      simp [List.lookup] at h
      rw [assocSet, if_pos rfl, assocSet, if_pos rfl, h]
    · have hbeq : (k == k1) = false := by simpa using hk
      simp only [List.lookup, hbeq] at h
      rw [assocSet, if_neg (fun hh => hk hh.symm), assocSet,
        if_neg (fun hh => hk hh.symm), ih h]

/-- C10 (amended): labeling an ability and pressing undo restores the exact
session state — removing the entry when the ability had no label, else
reinstating the previous value — provided the labeling actually changed the
label; re-applying the current label records no history entry, so a
subsequent undo reverts the previous change instead (see
`c10_counterexample`). Undo with an empty session history changes nothing. -/
theorem c10_label_undo_roundtrip (st : LabelState) (name newLabel : String) :
    (st.labels.lookup name ≠ some newLabel →
      applyUndo (applyLabel st name newLabel) = st) ∧
    (st.history = [] → applyUndo st = st) := by
  constructor
  · intro h
    rw [applyLabel]
    simp only [if_pos h]
    rw [applyUndo]
    cases hprev : st.labels.lookup name with
    | none =>
      simp only [hprev]
      rw [assocPop_assocSet_of_lookup_none st.labels name newLabel hprev]
    | some v =>
      simp only [hprev]
      rw [assocSet_assocSet_of_lookup_some st.labels name v newLabel hprev]
  · intro h
    obtain ⟨labels, history⟩ := st
    simp only at h
    subst h
    rfl

/-- Counterexample to C10 as stated: with `x` labeled earlier this session
and `y` already carrying the label `carry`, re-labeling `y` as `carry` is a
no-op that records no history, so the following undo reverts the earlier
`x` change — the labels mapping does not return to its pre-labeling state. -/
theorem c10_counterexample :
    applyUndo (applyLabel
        ⟨[("x", "carry"), ("y", "carry")], [("x", none)]⟩ "y" "carry") =
      ⟨[("y", "carry")], []⟩ ∧
    applyUndo (applyLabel
        ⟨[("x", "carry"), ("y", "carry")], [("x", none)]⟩ "y" "carry") ≠
      ⟨[("x", "carry"), ("y", "carry")], [("x", none)]⟩ := by
  constructor
  · rfl
  · decide

/-- Witness for `c10_label_undo_roundtrip`: label-then-undo on a fresh
state, and undo on an empty history. -/
theorem c10_label_undo_roundtrip_witness :
    applyUndo (applyLabel ⟨[], []⟩ "hex" "support") = ⟨[], []⟩ ∧
    applyUndo ⟨[("hex", "support")], []⟩ = ⟨[("hex", "support")], []⟩ :=
  ⟨(c10_label_undo_roundtrip ⟨[], []⟩ "hex" "support").1 (by decide),
    (c10_label_undo_roundtrip ⟨[("hex", "support")], []⟩ "x" "y").2 rfl⟩

/-! ### Claims about the scraper parsers -/

/-- C6: `parse_hs_table` raises exactly when the scan produced zero
abilities, and `parse_by_hero` raises exactly when no hero with at least
one ability survived; neither returns an empty result. -/
theorem c6_zero_parse_raises :
    (∀ (winIdx pickIdx : ℕ) (rows : List HSRow),
      ((hsScan winIdx pickIdx rows).1 = [] →
        parse_hs_table winIdx pickIdx rows =
          Except.error
            "Parsed zero HS abilities; page structure may have changed.") ∧
      (∀ res, parse_hs_table winIdx pickIdx rows = Except.ok res →
        res.1 ≠ [])) ∧
    (∀ events : List BHLink,
      (bhKept events = [] →
        parse_by_hero events = Except.error "Parsed zero heroes.") ∧
      (∀ res, parse_by_hero events = Except.ok res →
        res ≠ [] ∧ ∀ hv ∈ res, hv.2.abilities ≠ [])) := by
  constructor
  · intro wi pi rows
    constructor
    · intro h
      rw [parse_hs_table]
      simp [h]
    · intro res h
      rw [parse_hs_table] at h
      by_cases he : (hsScan wi pi rows).1.isEmpty
      · simp [he] at h
      · simp only [he, if_false, Bool.false_eq_true, Except.ok.injEq] at h
        rw [← h]
        intro hnil
        exact he (by rw [hnil]; rfl)
  · intro events
    constructor
    · intro h
      rw [parse_by_hero]
      simp [h]
    · intro res h
      rw [parse_by_hero] at h
      by_cases he : (bhKept events).isEmpty
      · simp [he] at h
      · simp only [he, if_false, Bool.false_eq_true, Except.ok.injEq] at h
        subst h
        refine ⟨fun hnil => he (by rw [hnil]; rfl), ?_⟩
        intro hv hmem
        have := List.mem_filter.mp hmem
        intro hnil
        rw [hnil] at this
        simp at this

/-- Witness for `c6_zero_parse_raises`: both parsers raise on an anchor-free
document. -/
theorem c6_zero_parse_raises_witness :
    parse_hs_table 0 1 [] =
      Except.error
        "Parsed zero HS abilities; page structure may have changed." ∧
    parse_by_hero [] = Except.error "Parsed zero heroes." :=
  ⟨(c6_zero_parse_raises.1 0 1 []).1 rfl, (c6_zero_parse_raises.2 []).1 rfl⟩

/-! ### Claims about the scraper table selection -/

/-- The best-candidate fold either keeps its initial accumulator or settles
on some table of the list with its own score. -/
theorem pickBest_fold_cases (score : ScrapedTable → Int)
    (tables : List ScrapedTable) :
    ∀ (b0 : Option ScrapedTable) (s0 : Int),
      tables.foldl
          (fun acc t => if score t > acc.2 then (some t, score t) else acc)
          (b0, s0) = (b0, s0) ∨
      ∃ t ∈ tables,
        tables.foldl
            (fun acc t => if score t > acc.2 then (some t, score t) else acc)
            (b0, s0) = (some t, score t) := by
  induction tables with
  | nil => intro b0 s0; left; rfl
  | cons u rest ih =>
    intro b0 s0
    simp only [List.foldl_cons]
    by_cases hu : score u > s0
    · rw [if_pos hu]
      rcases ih (some u) (score u) with h | ⟨t, ht, h⟩
      · right; exact ⟨u, List.mem_cons_self u rest, h⟩
      · right; exact ⟨t, List.mem_cons_of_mem u ht, h⟩
    · rw [if_neg hu]
      rcases ih b0 s0 with h | ⟨t, ht, h⟩
      · left; exact h
      · right; exact ⟨t, List.mem_cons_of_mem u ht, h⟩

/-- `pickBest` either finds nothing (keeping score -1) or settles on a
member table with its own score. -/
theorem pickBest_cases (score : ScrapedTable → Int)
    (tables : List ScrapedTable) :
    pickBest score tables = (none, -1) ∨
    ∃ t ∈ tables, pickBest score tables = (some t, score t) :=
  pickBest_fold_cases score tables none (-1)

/-- A chosen table always has score at least 3 (the shared accept-threshold
shape of both selection functions). -/
theorem pick_threshold_some (score : ScrapedTable → Int)
    (tables : List ScrapedTable) (t : ScrapedTable)
    (h : (if (pickBest score tables).2 ≥ 3 then (pickBest score tables).1
          else none) = some t) :
    score t ≥ 3 ∧ t ∈ tables := by
  by_cases hge : (pickBest score tables).2 ≥ 3
  · rw [if_pos hge] at h
    rcases pickBest_cases score tables with hc | ⟨u, hu, hc⟩
    · rw [hc] at h; cases h
    · rw [hc] at h hge
      cases h
      exact ⟨hge, hu⟩
  · rw [if_neg hge] at h; cases h

/-- When no table reaches score 3, nothing is chosen. -/
theorem pick_threshold_none (score : ScrapedTable → Int)
    (tables : List ScrapedTable) (hall : ∀ t ∈ tables, score t < 3) :
    (if (pickBest score tables).2 ≥ 3 then (pickBest score tables).1
      else none) = none := by
  rcases pickBest_cases score tables with hc | ⟨u, hu, hc⟩
  · rw [hc]; norm_num
  · rw [hc]
    simp only
    rw [if_neg (by have := hall u hu; omega)]

/-- C5 (amended): `_pick_data_table_byhero` never chooses a table lacking
both link patterns, and both selection functions choose only a table whose
score reaches the minimum threshold 3, returning no table otherwise. For
`_pick_table_with_text` the no-link guarantee fails: the required header
text alone already scores 3 (see `c5_counterexample`). -/
theorem c5_table_selection (tables : List ScrapedTable) (t : ScrapedTable) :
    (_pick_data_table_byhero tables = some t →
      t.hasAbilityLink = true ∨ t.hasHeroLink = true) ∧
    (_pick_table_with_text tables = some t → scoreWithText t ≥ 3) ∧
    (_pick_data_table_byhero tables = some t → scoreByHero t ≥ 3) ∧
    ((∀ u ∈ tables, scoreWithText u < 3) →
      _pick_table_with_text tables = none) ∧
    ((∀ u ∈ tables, scoreByHero u < 3) →
      _pick_data_table_byhero tables = none) := by
  refine ⟨?_, ?_, ?_, ?_, ?_⟩
  · intro h
    simp only [_pick_data_table_byhero] at h
    have hs := (pick_threshold_some scoreByHero tables t h).1
    by_contra hcon
    push_neg at hcon
    obtain ⟨ha, hh⟩ := hcon
    have ha' : t.hasAbilityLink = false := by
      cases hab : t.hasAbilityLink
      · rfl
      · exact absurd hab ha
    have hh' : t.hasHeroLink = false := by
      cases hhb : t.hasHeroLink
      · rfl
      · exact absurd hhb hh
    rw [scoreByHero, ha', hh'] at hs
    simp only [Bool.false_eq_true, if_false] at hs
    split_ifs at hs <;> omega
  · intro h
    simp only [_pick_table_with_text] at h
    exact (pick_threshold_some scoreWithText tables t h).1
  · intro h
    simp only [_pick_data_table_byhero] at h
    exact (pick_threshold_some scoreByHero tables t h).1
  · intro hall
    simp only [_pick_table_with_text]
    exact pick_threshold_none scoreWithText tables hall
  · intro hall
    simp only [_pick_data_table_byhero]
    exact pick_threshold_none scoreByHero tables hall

/-- Counterexample to C5 as stated: a table containing the required header
text but neither an ability-link nor a hero-link pattern scores exactly 3
and is chosen by `_pick_table_with_text`. -/
theorem c5_counterexample :
    (⟨true, false, false, false⟩ : ScrapedTable).hasAbilityLink = false ∧
    (⟨true, false, false, false⟩ : ScrapedTable).hasHeroLink = false ∧
    _pick_table_with_text [⟨true, false, false, false⟩] =
      some ⟨true, false, false, false⟩ := by
  refine ⟨rfl, rfl, ?_⟩
  decide

/-- Witness for `c5_table_selection`: a link-free table is never chosen by
`_pick_data_table_byhero` even with matching text, and a chosen table does
reach threshold. -/
theorem c5_table_selection_witness :
    _pick_data_table_byhero [⟨true, false, false, true⟩] = none ∧
    scoreByHero ⟨false, true, true, false⟩ ≥ 3 :=
  ⟨(c5_table_selection [⟨true, false, false, true⟩]
      ⟨true, false, false, true⟩).2.2.2.2 (by decide),
    (c5_table_selection [⟨false, true, true, false⟩]
      ⟨false, true, true, false⟩).2.2.1 (by decide)⟩


